import Mathlib

/-!
Shallow embedding of the core of `src/app.py` (Global Recession Meter):
the daily alignment step `asfreq('D').interpolate(method='linear')`
(line 128), the derived yield-curve spread (line 132), and the composite
risk scorer `calculate_risk_advanced` (lines 139–158).

Numeric model: pandas float values are modelled as `ℚ`; a missing cell
(NaN in a frame column) is `Option.none`.  The one place IEEE special
values arise inside the scored pipeline is `pct_change` (division by a
zero previous value); the value of one `pct_change` cell after
`.fillna(0)` is modelled by `PC`: a finite rational, `+inf`, or `-inf`
(NaN has already been replaced by 0 at that point, which is exactly what
`.fillna(0)` does).  `np.clip` sends `+inf`/`-inf` to the clip bounds,
exactly as NumPy does on floats.
-/

/-- Value of one cell of `df.pct_change().fillna(0)`: a finite rational,
or one of the two IEEE infinities produced by dividing a nonzero float
by zero. -/
inductive PC where
  | pinf : PC
  | ninf : PC
  | val (q : ℚ) : PC
deriving DecidableEq

/-- Negation, as in line 151 (`change = -change`); IEEE negation swaps
the two infinities. -/
def negPC : PC → PC
  | .pinf => .ninf
  | .ninf => .pinf
  | .val q => .val (-q)

/-- Model of `np.clip(change, -0.2, 0.2)` (line 152): `np.clip` maps
`+inf` to the upper bound and `-inf` to the lower bound. -/
def clipPC : PC → ℚ
  | .pinf => 1/5
  | .ninf => -(1/5)
  | .val q => max (-(1/5)) (min (1/5) q)

/-- One cell of `df.pct_change().fillna(0)` (line 142): percent change of
`curr` against `prev`.  A missing operand gives NaN, filled to 0 by
`.fillna(0)`; a zero previous value gives `(curr - prev)/0`, which is
`+inf` for `curr > 0`, `-inf` for `curr < 0`, and NaN (filled to 0) for
`curr = 0`. -/
def pcVal : Option ℚ → Option ℚ → PC
  | none, _ => .val 0
  | some _, none => .val 0
  | some p, some c =>
    if p = 0 then
      if 0 < c then .pinf else if c < 0 then .ninf else .val 0
    else .val ((c - p) / p)

/-- Forward fill of one column, threading the last seen value. -/
def ffillAux : Option ℚ → List (Option ℚ) → List (Option ℚ)
  | _, [] => []
  | last, none :: xs => last :: ffillAux last xs
  | _, some v :: xs => some v :: ffillAux (some v) xs

/-- Model of `df.ffill()` (line 140) on one column: each missing cell is
replaced by the most recent earlier value; cells before the first known
value stay missing. -/
def ffill (xs : List (Option ℚ)) : List (Option ℚ) := ffillAux none xs

/-- Row `t` of `df.pct_change().fillna(0)` for one column: the first row
of `pct_change` is NaN (so 0 after `fillna`), and row `t` compares the
cell at `t` against the cell at `t - 1`. -/
def pctAt (col : List (Option ℚ)) (t : ℕ) : PC :=
  if t = 0 then .val 0 else pcVal (col.getD (t-1) none) (col.getD t none)

/-- Keys of `codes["USA"]` (lines 25–49), in dict insertion order: the
loop on line 146 iterates exactly these names. -/
def codes_USA : List String :=
  ["Real GDP", "Unemployment", "CPI", "Industrial Production",
   "Retail Sales", "10-Year Rate", "3-Month Rate", "Consumer Confidence",
   "Nonfarm Payrolls", "Building Permits", "S&P 500", "WTI Oil",
   "30Y Fixed Mortgage", "Mortgage Delinquencies",
   "Personal Consumption Expenditure", "Personal Income",
   "Durable Goods Orders", "ISM Manufacturing", "ISM Services",
   "M2 Money Supply", "Corporate Profits"]

/-- The `weights` dict (lines 51–74), as a lookup.  Every name the
program looks up is one of the 22 keys below; the final 0 exists only to
make the Lean function total. -/
def weights (name : String) : ℚ :=
  if name == "Yield Curve (10y-3m)" then 35
  else if name == "Real GDP" then 30
  else if name == "Unemployment" then 30
  else if name == "CPI" then 25
  else if name == "Industrial Production" then 15
  else if name == "Retail Sales" then 15
  else if name == "10-Year Rate" then 5
  else if name == "3-Month Rate" then 5
  else if name == "Consumer Confidence" then 10
  else if name == "Nonfarm Payrolls" then 15
  else if name == "Building Permits" then 5
  else if name == "S&P 500" then 10
  else if name == "WTI Oil" then 5
  else if name == "30Y Fixed Mortgage" then 5
  else if name == "Mortgage Delinquencies" then 10
  else if name == "Personal Consumption Expenditure" then 10
  else if name == "Personal Income" then 10
  else if name == "Durable Goods Orders" then 10
  else if name == "ISM Manufacturing" then 15
  else if name == "ISM Services" then 15
  else if name == "M2 Money Supply" then 5
  else if name == "Corporate Profits" then 15
  else 0

/-- The `risk_direction` dict (lines 76–99), as a lookup; the six keys
mapped to `True` in the source are listed, the rest are `False` (the
catch-all also covers names outside the dict, for totality only). -/
def risk_direction (name : String) : Bool :=
  if name == "Unemployment" then true
  else if name == "CPI" then true
  else if name == "10-Year Rate" then true
  else if name == "3-Month Rate" then true
  else if name == "30Y Fixed Mortgage" then true
  else if name == "Mortgage Delinquencies" then true
  else false

/-- Name of the derived spread column (lines 52, 132, 154–155). -/
def spread_name : String := "Yield Curve (10y-3m)"

/-- Name of the derived inflation column (line 130). -/
def inflation_name : String := "Annual Inflation (%)"

/-- An aligned frame: a daily date index of length `nDates` and named
columns of per-day optional values (length `nDates` each in well-formed
frames; lookups use `getD _ none`, so a short column reads as missing). -/
structure DataFrame where
  nDates : ℕ
  cols : List (String × List (Option ℚ))

/-- First column with the given name, the model of `var in df.columns`
followed by `df[var]`. -/
def lookupCol : List (String × List (Option ℚ)) → String → Option (List (Option ℚ))
  | [], _ => none
  | c :: cs, name => if c.1 == name then some c.2 else lookupCol cs name

/-- Column lookup on a frame. -/
def DataFrame.col? (df : DataFrame) (name : String) : Option (List (Option ℚ)) :=
  lookupCol df.cols name

/-- Line 132: the derived spread column
`df["10-Year Rate"] - df["3-Month Rate"]` (elementwise, NaN propagates
through subtraction). -/
def mkSpread (tenY threeM : List (Option ℚ)) : List (Option ℚ) :=
  List.zipWith (fun a b =>
    match a, b with
    | some x, some y => some (x - y)
    | _, _ => none) tenY threeM

/-- Lines 149–151: the signed percent change used for indicator `var` at
row `t`; the change is negated exactly when `risk_direction[var]` is
`False` (`if not risk_direction[var]: change = -change`). -/
def signedChangeAt (df : DataFrame) (var : String) (t : ℕ) : PC :=
  match df.col? var with
  | none => .val 0
  | some col =>
    if risk_direction var then pctAt (ffill col) t else negPC (pctAt (ffill col) t)

/-- Lines 147–153: the weighted, clipped contribution of `var` to the
date-`t` accumulator (`continue`, i.e. 0, when `var` is not a column of
the frame). -/
def indicatorContrib (df : DataFrame) (var : String) (t : ℕ) : ℚ :=
  match df.col? var with
  | none => 0
  | some _ => clipPC (signedChangeAt df var t) * weights var

/-- Lines 145–153: the `value` accumulated by the loop over
`codes["USA"]` for one date. -/
def baseValue (df : DataFrame) (t : ℕ) : ℚ :=
  (codes_USA.map (fun var => indicatorContrib df var t)).sum

/-- Lines 154–155: the inversion bonus, added when the spread column is
present and its (forward-filled, line 140) value at row `t` is negative.
`NaN < 0` is `False` in pandas, so a missing spread value adds nothing. -/
def spreadBonus (df : DataFrame) (t : ℕ) : ℚ :=
  match df.col? spread_name with
  | none => 0
  | some col =>
    match (ffill col).getD t none with
    | some v => if v < 0 then weights spread_name * (1/2) else 0
    | none => 0

/-- The accumulated `value` of date `t` just before line 156's clamp. -/
def preClamp (df : DataFrame) (t : ℕ) : ℚ := baseValue df t + spreadBonus df t

/-- Line 156: `risk[date] = max(0, min(100, value))`. -/
def riskAt (df : DataFrame) (t : ℕ) : ℚ := max 0 (min 100 (preClamp df t))

/-- `calculate_risk_advanced` (lines 139–158): the `"Risk (%)"` column,
one value per date of the frame. -/
def calculate_risk_advanced (df : DataFrame) : List ℚ :=
  (List.range df.nDates).map (riskAt df)

/-- Modelled from the spec: the repository's source under `src/` has no
event-detector code (spec §4.4 describes one, but `src/app.py` contains
none).  Per the spec, compute the day-over-day difference of the risk
score series and select every date where it exceeds the fixed +5-point
threshold. -/
def detectEvents (scores : List ℚ) : List ℕ :=
  (List.range scores.length).filter
    (fun i => if 0 < i ∧ scores.getD (i-1) 0 + 5 < scores.getD i 0 then true else false)

/-- Index and value of the last known observation at position at most
`i` (scanning down from `i`); used to state what alignment and forward
fill produce. -/
def lastKnown (xs : List (Option ℚ)) : ℕ → Option (ℕ × ℚ)
  | 0 =>
    match xs.getD 0 none with
    | some v => some (0, v)
    | none => none
  | i+1 =>
    match xs.getD (i+1) none with
    | some v => some (i+1, v)
    | none => lastKnown xs i

/-- Index and value of the first known observation at position at least
`i`, searching at most `fuel` positions upward. -/
def nextKnownFrom (xs : List (Option ℚ)) : ℕ → ℕ → Option (ℕ × ℚ)
  | 0, _ => none
  | fuel+1, i =>
    match xs.getD i none with
    | some v => some (i, v)
    | none => nextKnownFrom xs fuel (i+1)

/-- Index and value of the first known observation at position at least
`i` (within the list). -/
def nextKnown (xs : List (Option ℚ)) (i : ℕ) : Option (ℕ × ℚ) :=
  nextKnownFrom xs (xs.length - i) i

/-- Cell `i` of `interpolate(method='linear')` (default
`limit_direction='forward'`) applied to a daily-reindexed column
(line 128): a known cell is kept; a missing cell strictly between two
known observations gets the linear interpolation between its nearest
known neighbours (positions are consecutive days after `asfreq('D')`, so
pandas' equal-spacing 'linear' method agrees with day arithmetic); a
missing cell after the last known observation is padded with that last
value (pandas' forward limit direction); a missing cell before the first
known observation stays missing. -/
def interpAt (xs : List (Option ℚ)) (i : ℕ) : Option ℚ :=
  match xs.getD i none with
  | some v => some v
  | none =>
    match lastKnown xs i, nextKnown xs i with
    | some jv, some kv =>
      some (jv.2 + (kv.2 - jv.2) * (((i : ℚ) - (jv.1 : ℚ)) / ((kv.1 : ℚ) - (jv.1 : ℚ))))
    | some jv, none => some jv.2
    | none, _ => none

/-- Model of `asfreq('D').interpolate(method='linear')` (line 128) on one
column already laid out on the daily grid (`none` where the grid day had
no observation). -/
def interpolateLinear (xs : List (Option ℚ)) : List (Option ℚ) :=
  (List.range xs.length).map (interpAt xs)

/-! ### General-purpose lemmas about the embedding -/

theorem clipPC_val_zero : clipPC (.val 0) = 0 := by
  rw [clipPC]
  norm_num

theorem pctAt_zero (col : List (Option ℚ)) : pctAt col 0 = .val 0 := rfl

theorem indicatorContrib_at_zero (df : DataFrame) (var : String) :
    indicatorContrib df var 0 = 0 := by
  rw [indicatorContrib]
  cases h : df.col? var with
  | none => rfl
  | some col =>
    rw [signedChangeAt, h]
    cases risk_direction var <;>
      simp [pctAt, negPC, clipPC]

theorem baseValue_at_zero (df : DataFrame) : baseValue df 0 = 0 := by
  rw [baseValue]
  apply List.sum_eq_zero
  intro x hx
  obtain ⟨var, _, rfl⟩ := List.mem_map.mp hx
  exact indicatorContrib_at_zero df var

theorem sum_map_single (f : String → ℚ) (nm : String) (c : ℚ)
    (hf : ∀ v, f v = if v = nm then c else 0) :
    ∀ L : List String, (L.map f).sum = (L.count nm : ℚ) * c := by
  intro L
  induction L with
  | nil => simp
  | cons b L ih =>
    by_cases h : b = nm
    · subst h
      simp only [List.map_cons, List.sum_cons, ih, hf b, if_pos rfl,
        List.count_cons_self]
      push_cast
      ring
    · have : (b :: L).count nm = L.count nm := by
        rw [List.count_cons]
        simp only [beq_iff_eq]
        rw [if_neg h, Nat.add_zero]
      simp only [List.map_cons, List.sum_cons, ih, hf b, if_neg h, this]
      ring

theorem col?_single_ne (n : ℕ) (nm : String) (vals : List (Option ℚ))
    (v : String) (h : v ≠ nm) : (DataFrame.mk n [(nm, vals)]).col? v = none := by
  rw [DataFrame.col?, lookupCol]
  simp [beq_iff_eq, Ne.symm h, lookupCol]

theorem indicatorContrib_of_none (df : DataFrame) (var : String) (t : ℕ)
    (h : df.col? var = none) : indicatorContrib df var t = 0 := by
  rw [indicatorContrib, h]

theorem baseValue_single (n : ℕ) (nm : String) (vals : List (Option ℚ)) (t : ℕ) :
    baseValue ⟨n, [(nm, vals)]⟩ t =
      (codes_USA.count nm : ℚ) * indicatorContrib ⟨n, [(nm, vals)]⟩ nm t := by
  rw [baseValue, sum_map_single _ nm (indicatorContrib ⟨n, [(nm, vals)]⟩ nm t)]
  intro v
  by_cases h : v = nm
  · simp [h]
  · rw [if_neg h, indicatorContrib_of_none _ _ _ (col?_single_ne n nm vals v h)]

theorem spreadBonus_of_none (df : DataFrame) (t : ℕ)
    (h : df.col? spread_name = none) : spreadBonus df t = 0 := by
  rw [spreadBonus, h]

theorem ffillAux_length (acc : Option ℚ) (xs : List (Option ℚ)) :
    (ffillAux acc xs).length = xs.length := by
  induction xs generalizing acc with
  | nil => rfl
  | cons x xs ih => cases x <;> simp [ffillAux, ih]

theorem ffill_length (xs : List (Option ℚ)) : (ffill xs).length = xs.length :=
  ffillAux_length none xs


theorem lastKnown_zero (xs : List (Option ℚ)) :
    lastKnown xs 0 =
      match xs.getD 0 none with
      | some v => some (0, v)
      | none => none := rfl

theorem lastKnown_succ (xs : List (Option ℚ)) (i : ℕ) :
    lastKnown xs (i+1) =
      match xs.getD (i+1) none with
      | some v => some (i+1, v)
      | none => lastKnown xs i := rfl

theorem nextKnownFrom_succ (xs : List (Option ℚ)) (fuel i : ℕ) :
    nextKnownFrom xs (fuel+1) i =
      match xs.getD i none with
      | some v => some (i, v)
      | none => nextKnownFrom xs fuel (i+1) := rfl

theorem lastKnown_cons (x : Option ℚ) (xs : List (Option ℚ)) (i : ℕ) :
    lastKnown (x :: xs) (i+1) =
      match lastKnown xs i with
      | some r => some (r.1 + 1, r.2)
      | none =>
        match x with
        | some v => some (0, v)
        | none => none := by
  induction i with
  | zero =>
    rw [lastKnown_succ, List.getD_cons_succ, lastKnown_zero xs,
      lastKnown_zero (x :: xs), List.getD_cons_zero]
    cases h : xs.getD 0 none <;> rfl
  | succ i ih =>
    rw [lastKnown_succ (x :: xs) (i+1), List.getD_cons_succ, ih, lastKnown_succ xs i]
    cases h : xs.getD (i+1) none with
    | some v => rfl
    | none => rfl

theorem ffillAux_getD (xs : List (Option ℚ)) :
    ∀ (acc : Option ℚ) (i : ℕ), i < xs.length →
      (ffillAux acc xs).getD i none =
        match lastKnown xs i with
        | some r => some r.2
        | none => acc := by
  induction xs with
  | nil => intro acc i h; simp at h
  | cons x xs ih =>
    intro acc i h
    cases i with
    | zero =>
      rw [lastKnown_zero, List.getD_cons_zero]
      cases x with
      | none => rfl
      | some v => rfl
    | succ i =>
      have h' : i < xs.length := by simpa using h
      rw [lastKnown_cons]
      cases x with
      | none =>
        rw [show ffillAux acc (none :: xs) = acc :: ffillAux acc xs from rfl,
          List.getD_cons_succ, ih acc i h']
        cases hl : lastKnown xs i with
        | some r => rfl
        | none => rfl
      | some v =>
        rw [show ffillAux acc (some v :: xs) = some v :: ffillAux (some v) xs from rfl,
          List.getD_cons_succ, ih (some v) i h']
        cases hl : lastKnown xs i with
        | some r => rfl
        | none => rfl

theorem ffill_getD (xs : List (Option ℚ)) (i : ℕ) (h : i < xs.length) :
    (ffill xs).getD i none = (lastKnown xs i).map Prod.snd := by
  rw [ffill, ffillAux_getD xs none i h]
  cases lastKnown xs i <;> rfl

theorem lastKnown_eq_of (xs : List (Option ℚ)) (j : ℕ) (vj : ℚ)
    (hj : xs.getD j none = some vj) :
    ∀ i, j ≤ i → (∀ m, j < m → m ≤ i → xs.getD m none = none) →
      lastKnown xs i = some (j, vj) := by
  intro i
  induction i with
  | zero =>
    intro hle _
    have h0 : j = 0 := Nat.le_zero.mp hle
    subst h0
    rw [lastKnown_zero, hj]
  | succ i ih =>
    intro hle hnone
    by_cases hji : j = i + 1
    · subst hji
      rw [lastKnown_succ, hj]
    · have hj' : j ≤ i := Nat.lt_succ_iff.mp (lt_of_le_of_ne hle hji)
      have hn : xs.getD (i+1) none = none :=
        hnone (i+1) (Nat.lt_succ_of_le hj') (le_refl _)
      rw [lastKnown_succ, hn]
      exact ih hj' (fun m hm1 hm2 => hnone m hm1 (Nat.le_succ_of_le hm2))

theorem lastKnown_none (xs : List (Option ℚ)) :
    ∀ i, (∀ m, m ≤ i → xs.getD m none = none) → lastKnown xs i = none := by
  intro i
  induction i with
  | zero =>
    intro h
    rw [lastKnown_zero, h 0 (le_refl 0)]
  | succ i ih =>
    intro h
    rw [lastKnown_succ, h (i+1) (le_refl _)]
    exact ih (fun m hm => h m (Nat.le_succ_of_le hm))

theorem nextKnownFrom_eq (xs : List (Option ℚ)) (k : ℕ) (vk : ℚ)
    (hk : xs.getD k none = some vk) :
    ∀ (fuel i : ℕ), i ≤ k → k < i + fuel →
      (∀ m, i ≤ m → m < k → xs.getD m none = none) →
      nextKnownFrom xs fuel i = some (k, vk) := by
  intro fuel
  induction fuel with
  | zero => intro i h1 h2 _; omega
  | succ fuel ih =>
    intro i h1 h2 hnone
    by_cases hik : i = k
    · subst hik
      rw [nextKnownFrom_succ, hk]
    · have hlt : i < k := lt_of_le_of_ne h1 hik
      have hn : xs.getD i none = none := hnone i (le_refl _) hlt
      rw [nextKnownFrom_succ, hn]
      exact ih (i+1) hlt (by omega) (fun m hm1 hm2 => hnone m (by omega) hm2)

theorem nextKnown_eq (xs : List (Option ℚ)) (k : ℕ) (vk : ℚ) (i : ℕ)
    (hk : xs.getD k none = some vk) (h1 : i ≤ k) (h2 : k < xs.length)
    (hnone : ∀ m, i ≤ m → m < k → xs.getD m none = none) :
    nextKnown xs i = some (k, vk) := by
  rw [nextKnown]
  exact nextKnownFrom_eq xs k vk hk (xs.length - i) i h1 (by omega) hnone

theorem nextKnownFrom_none (xs : List (Option ℚ)) :
    ∀ (fuel i : ℕ), (∀ m, i ≤ m → xs.getD m none = none) →
      nextKnownFrom xs fuel i = none := by
  intro fuel
  induction fuel with
  | zero => intro i _; rfl
  | succ fuel ih =>
    intro i h
    rw [nextKnownFrom_succ, h i (le_refl _)]
    exact ih (i+1) (fun m hm => h m (by omega))

theorem getD_map_range (f : ℕ → Option ℚ) (n i : ℕ) (h : i < n) :
    ((List.range n).map f).getD i none = f i := by
  rw [List.getD_eq_getElem?_getD, List.getElem?_map, List.getElem?_range h]
  rfl

theorem clipPC_neg (x : PC) : clipPC (negPC x) = -(clipPC x) := by
  cases x with
  | pinf => with_unfolding_all rfl
  | ninf => norm_num [negPC, clipPC]
  | val q =>
    show max (-(1/5)) (min (1/5) (-q)) = -(max (-(1/5)) (min (1/5) q))
    rcases le_total q (1/5) with h1 | h1 <;> rcases le_total (-(1/5)) q with h2 | h2 <;>
      rw [min_def, min_def, max_def, max_def] <;> split_ifs <;> linarith

/-! ### Claim theorems -/

/-- C1: every entry of the `"Risk (%)"` column produced by
`calculate_risk_advanced` lies in [0, 100], whatever the magnitudes in the
frame: line 156 records `max(0, min(100, value))` for every date. -/
theorem risk_score_clamped (df : DataFrame) (x : ℚ)
    (hx : x ∈ calculate_risk_advanced df) : 0 ≤ x ∧ x ≤ 100 := by
  obtain ⟨t, -, rfl⟩ := List.mem_map.mp hx
  rw [riskAt]
  exact ⟨le_max_left 0 _, max_le (by norm_num) (min_le_left _ _)⟩

/-- Witness for C1 at a concrete one-date frame. -/
theorem risk_score_clamped_witness :
    0 ≤ riskAt ⟨1, []⟩ 0 ∧ riskAt ⟨1, []⟩ 0 ≤ 100 :=
  risk_score_clamped ⟨1, []⟩ (riskAt ⟨1, []⟩ 0) (by
    rw [show calculate_risk_advanced ⟨1, []⟩ = [riskAt ⟨1, []⟩ 0] from rfl]
    exact List.mem_singleton.mpr rfl)

/-- C7 counterexample: a one-date frame DOES produce a numeric risk
score: the loop body runs for the single date with every percent change
0 (`pct_change` row NaN, filled to 0), and line 156 records the clamped
number 0 — not an undefined marker, refuting the claim that fewer than 2
dates produce no score. -/
theorem single_date_score_counterexample :
    calculate_risk_advanced ⟨1, [("Real GDP", [some 5])]⟩ = [0] ∧
    (calculate_risk_advanced ⟨1, [("Real GDP", [some 5])]⟩).length = 1 :=
  ⟨by with_unfolding_all rfl, by with_unfolding_all rfl⟩

/-- C7 amended: an empty frame produces no scores, but a one-date frame
produces the numeric score 0 for its date — or `spread_weight * 0.5` when
its only column is a spread that is negative there — never an undefined
marker. -/
theorem single_date_score_amended :
    (∀ cols, calculate_risk_advanced ⟨0, cols⟩ = []) ∧
    (∀ (nm : String) (v : ℚ), nm ≠ spread_name →
      calculate_risk_advanced ⟨1, [(nm, [some v])]⟩ = [0]) ∧
    (∀ v : ℚ, v < 0 →
      calculate_risk_advanced ⟨1, [(spread_name, [some v])]⟩
        = [weights spread_name * (1/2)]) := by
  refine ⟨fun cols => rfl, ?_, ?_⟩
  · intro nm v h
    rw [show calculate_risk_advanced ⟨1, [(nm, [some v])]⟩
          = [riskAt ⟨1, [(nm, [some v])]⟩ 0] from rfl]
    have hb : (⟨1, [(nm, [some v])]⟩ : DataFrame).col? spread_name = none := by
      simp [DataFrame.col?, lookupCol, beq_iff_eq, h]
    rw [riskAt, preClamp, baseValue_at_zero, spreadBonus_of_none _ 0 hb]
    norm_num
  · intro v hv
    rw [show calculate_risk_advanced ⟨1, [(spread_name, [some v])]⟩
          = [riskAt ⟨1, [(spread_name, [some v])]⟩ 0] from rfl]
    have hb : spreadBonus ⟨1, [(spread_name, [some v])]⟩ 0
        = weights spread_name * (1/2) := by
      simp only [spreadBonus,
        show (⟨1, [(spread_name, [some v])]⟩ : DataFrame).col? spread_name
          = some [some v] from rfl,
        show (ffill [some v]).getD 0 none = some v from rfl]
      rw [if_pos hv]
    rw [riskAt, preClamp, baseValue_at_zero, hb,
      show weights spread_name = 35 from rfl]
    norm_num

/-- Witness for C7's amended statement at concrete frames. -/
theorem single_date_score_amended_witness :
    calculate_risk_advanced ⟨1, [("CPI", [some 7])]⟩ = [0] ∧
    calculate_risk_advanced ⟨1, [(spread_name, [some (-2)])]⟩
      = [weights spread_name * (1/2)] :=
  ⟨single_date_score_amended.2.1 "CPI" 7 (by decide),
   single_date_score_amended.2.2 (-2) (by norm_num)⟩

/-- C8: the event detector (modelled from the spec; the source has none)
selects exactly the dates whose day-over-day score delta exceeds +5: on
[40, 41, 47, 46] it reports exactly the third date (index 2, delta +6),
and in general membership is equivalent to the threshold condition. -/
theorem detect_events_example :
    detectEvents [40, 41, 47, 46] = [2] ∧
    (∀ (s : List ℚ) (i : ℕ),
      i ∈ detectEvents s ↔ 0 < i ∧ i < s.length ∧ s.getD (i-1) 0 + 5 < s.getD i 0) := by
  constructor
  · with_unfolding_all rfl
  · intro s i
    rw [detectEvents]
    constructor
    · intro hi
      obtain ⟨h1, h2⟩ := List.mem_filter.mp hi
      rw [List.mem_range] at h1
      by_cases hc : 0 < i ∧ s.getD (i-1) 0 + 5 < s.getD i 0
      · exact ⟨hc.1, h1, hc.2⟩
      · rw [if_neg hc] at h2
        exact absurd h2 (by simp)
    · intro h
      exact List.mem_filter.mpr
        ⟨List.mem_range.mpr h.2.1, by rw [if_pos ⟨h.1, h.2.2⟩]⟩

/-- C9 counterexample: the first date's score is not always 0: a frame
whose spread column is negative on the first date receives the inversion
bonus there and scores 17.5. -/
theorem first_date_score_counterexample :
    riskAt ⟨1, [(spread_name, [some (-1)])]⟩ 0 = 35/2 ∧ (35/2 : ℚ) ≠ 0 :=
  ⟨by with_unfolding_all rfl, by norm_num⟩

/-- C9 amended: on the first date every indicator's percent change is
treated as 0 and the weighted accumulation is 0, so the first date scores
0 whenever no spread column is present (a negative spread on the first
date would add its fixed bonus); in the claim's two-date scenario
("Real GDP", weight 30, direction False, values [100, 80]) the scores are
[0, 6]. -/
theorem first_date_score_amended :
    (∀ col : List (Option ℚ), pctAt col 0 = PC.val 0) ∧
    (∀ df : DataFrame, baseValue df 0 = 0) ∧
    (∀ df : DataFrame, df.col? spread_name = none → riskAt df 0 = 0) ∧
    calculate_risk_advanced ⟨2, [("Real GDP", [some 100, some 80])]⟩ = [0, 6] := by
  refine ⟨fun col => rfl, baseValue_at_zero, ?_, by with_unfolding_all rfl⟩
  intro df h
  rw [riskAt, preClamp, baseValue_at_zero, spreadBonus_of_none df 0 h]
  norm_num

/-- Witness for C9's amended statement at a concrete frame. -/
theorem first_date_score_amended_witness :
    riskAt ⟨3, [("CPI", [some 1, some 2, some 3])]⟩ 0 = 0 :=
  first_date_score_amended.2.2.1 ⟨3, [("CPI", [some 1, some 2, some 3])]⟩
    (by with_unfolding_all rfl)

/-- C2 counterexample: "Real GDP" has direction flag False, and with
values [100, 110] the raw day-2 percent change is (110-100)/100, yet the
signed change the scorer uses is its negation (lines 150–151 negate when
the flag is False), contradicting the claim that a False flag keeps the
raw change. -/
theorem signed_change_direction_counterexample :
    risk_direction "Real GDP" = false ∧
    pctAt (ffill [some 100, some 110]) 1 = PC.val ((110 - 100) / 100) ∧
    signedChangeAt ⟨2, [("Real GDP", [some 100, some 110])]⟩ "Real GDP" 1
      = PC.val (-((110 - 100) / 100)) ∧
    PC.val (-((110 - 100) / 100)) ≠ PC.val ((110 - 100) / 100) := by
  refine ⟨rfl, by with_unfolding_all rfl, by with_unfolding_all rfl, ?_⟩
  intro h
  rw [PC.val.injEq] at h
  norm_num at h

/-- C2 amended: the signed change equals the raw percent change when the
direction flag is True and the NEGATED raw change when the flag is False
(so a positive signed change still means more risk under the source's
flag convention "True = rising value increases risk"); moreover the
clipped signed change for a False flag is exactly the negated clipped raw
change. -/
theorem signed_change_direction_amended (df : DataFrame) (var : String)
    (col : List (Option ℚ)) (t : ℕ) (h : df.col? var = some col) :
    (risk_direction var = true →
      signedChangeAt df var t = pctAt (ffill col) t) ∧
    (risk_direction var = false →
      signedChangeAt df var t = negPC (pctAt (ffill col) t) ∧
      clipPC (signedChangeAt df var t) = -(clipPC (pctAt (ffill col) t))) := by
  constructor
  · intro hd
    rw [signedChangeAt, h, hd]
    simp
  · intro hd
    have hs : signedChangeAt df var t = negPC (pctAt (ffill col) t) := by
      rw [signedChangeAt, h, hd]
      simp
    exact ⟨hs, by rw [hs, clipPC_neg]⟩

/-- Witness for C2's amended statement at a concrete frame ("Unemployment",
flag True; "Real GDP", flag False). -/
theorem signed_change_direction_amended_witness :
    signedChangeAt ⟨2, [("Unemployment", [some 100, some 110])]⟩ "Unemployment" 1
      = pctAt (ffill [some 100, some 110]) 1 ∧
    clipPC (signedChangeAt ⟨2, [("Real GDP", [some 100, some 110])]⟩ "Real GDP" 1)
      = -(clipPC (pctAt (ffill [some 100, some 110]) 1)) :=
  ⟨(signed_change_direction_amended ⟨2, [("Unemployment", [some 100, some 110])]⟩
      "Unemployment" [some 100, some 110] 1 rfl).1 rfl,
   ((signed_change_direction_amended ⟨2, [("Real GDP", [some 100, some 110])]⟩
      "Real GDP" [some 100, some 110] 1 rfl).2 rfl).2⟩

/-- C3 counterexample: in the claim's isolated scenario (derived spread
column with values [0.5, -0.5], built by line 132 from rates
[1, 0.5] and [0.5, 1], weight 35), day 2 scores exactly the inversion
bonus 17.5, not the claimed 10.5: the weighted accumulation of the spread
contributes nothing because the loop iterates `codes["USA"]` only. -/
theorem derived_column_scoring_counterexample :
    riskAt ⟨2, [(spread_name,
        mkSpread [some 1, some (1/2)] [some (1/2), some 1])]⟩ 1 = 35/2 ∧
    baseValue ⟨2, [(spread_name,
        mkSpread [some 1, some (1/2)] [some (1/2), some 1])]⟩ 1 = 0 ∧
    (35/2 : ℚ) ≠ 21/2 :=
  ⟨by with_unfolding_all rfl, by with_unfolding_all rfl, by norm_num⟩

/-- C3 amended: derived columns do NOT participate in the weighted
accumulation: neither derived name is among the iterated `codes["USA"]`
keys, a frame whose only column is the spread accumulates base value 0 at
every date, and in the claim's scenario day 2 scores exactly the bonus
`35 * 0.5 = 17.5` (the spread's own percent change is never weighed in). -/
theorem derived_column_scoring_amended :
    spread_name ∉ codes_USA ∧ inflation_name ∉ codes_USA ∧
    (∀ (n : ℕ) (vals : List (Option ℚ)) (t : ℕ),
      baseValue ⟨n, [(spread_name, vals)]⟩ t = 0) ∧
    riskAt ⟨2, [(spread_name,
        mkSpread [some 1, some (1/2)] [some (1/2), some 1])]⟩ 1
      = weights spread_name * (1/2) := by
  refine ⟨by decide, by decide, ?_, by with_unfolding_all rfl⟩
  intro n vals t
  rw [baseValue_single, show codes_USA.count spread_name = 0 from by decide]
  norm_num

/-- C4 counterexample: a zero previous value with a nonzero current value
is NOT treated as zero change: with "Unemployment" values [0, 5]
(weight 30, direction True), `pct_change` yields +inf, `.fillna(0)`
leaves it (it only replaces NaN), and `np.clip` caps it at 0.2, so the
indicator contributes 0.2 * 30 = 6, not 0. -/
theorem zero_prev_change_counterexample :
    pcVal (some 0) (some 5) = PC.pinf ∧
    indicatorContrib ⟨2, [("Unemployment", [some 0, some 5])]⟩ "Unemployment" 1 = 6 ∧
    (6 : ℚ) ≠ 0 :=
  ⟨by with_unfolding_all rfl, by with_unfolding_all rfl, by norm_num⟩

/-- C4 amended: a missing previous value yields zero change, and a zero
previous with zero current yields zero change; but a zero previous with a
nonzero current yields an IEEE infinity whose clip is the extreme ±0.2.
No NaN survives into the clamp (`PC` has no NaN after `fillna(0)`), and
the code never crashes, but the "treated as 0" part of the claim is wrong
for the zero-divisor case. -/
theorem zero_prev_change_amended (c : Option ℚ) (q : ℚ) :
    pcVal none c = PC.val 0 ∧
    pcVal (some 0) (some 0) = PC.val 0 ∧
    (0 < q → pcVal (some 0) (some q) = PC.pinf ∧
      clipPC (pcVal (some 0) (some q)) = 1/5) ∧
    (q < 0 → pcVal (some 0) (some q) = PC.ninf ∧
      clipPC (pcVal (some 0) (some q)) = -(1/5)) := by
  refine ⟨by cases c <;> rfl, by with_unfolding_all rfl, ?_, ?_⟩
  · intro hq
    have h : pcVal (some 0) (some q) = PC.pinf := by
      simp [pcVal, hq]
    exact ⟨h, by rw [h]; rfl⟩
  · intro hq
    have h : pcVal (some 0) (some q) = PC.ninf := by
      simp [pcVal, hq, lt_asymm hq]
    exact ⟨h, by rw [h]; rfl⟩

/-- Witness for C4's amended statement at concrete inputs. -/
theorem zero_prev_change_amended_witness :
    pcVal (some 0) (some 5) = PC.pinf ∧ clipPC (pcVal (some 0) (some 5)) = 1/5 :=
  (zero_prev_change_amended (some 5) 5).2.2.1 (by norm_num)

/-- C6: with a spread column present and carrying a value at date t, a
strictly negative value adds exactly `spread_weight * 0.5` to the
accumulated (pre-clamp) value and a non-negative value adds nothing;
concretely, a spread of -0.01 on day 2 scores exactly
`35 * 0.5 = 17.5` higher than the otherwise-identical +0.01 run. -/
theorem spread_bonus_exact (df : DataFrame) (col : List (Option ℚ)) (t : ℕ) (q : ℚ)
    (h : df.col? spread_name = some col)
    (hv : (ffill col).getD t none = some q) :
    (q < 0 → preClamp df t = baseValue df t + weights spread_name * (1/2)) ∧
    (0 ≤ q → preClamp df t = baseValue df t) ∧
    riskAt ⟨2, [(spread_name, [some 0, some (-(1/100))])]⟩ 1
      = riskAt ⟨2, [(spread_name, [some 0, some (1/100)])]⟩ 1
        + weights spread_name * (1/2) := by
  refine ⟨?_, ?_, by with_unfolding_all rfl⟩
  · intro hq
    rw [preClamp]
    simp only [spreadBonus, h, hv]
    rw [if_pos hq]
  · intro hq
    rw [preClamp]
    simp only [spreadBonus, h, hv]
    rw [if_neg (not_lt.mpr hq), add_zero]

/-- Witness for C6 at a concrete one-column frame. -/
theorem spread_bonus_exact_witness :
    preClamp ⟨1, [(spread_name, [some (-1)])]⟩ 0
      = baseValue ⟨1, [(spread_name, [some (-1)])]⟩ 0
        + weights spread_name * (1/2) :=
  (spread_bonus_exact ⟨1, [(spread_name, [some (-1)])]⟩ [some (-1)] 0 (-1)
    rfl rfl).1 (by norm_num)

/-- C5 counterexample: pandas `interpolate(method='linear')` (default
`limit_direction='forward'`) pads trailing missing dates with the last
known observation instead of leaving them missing: on the daily grid
[1, gap, 3, gap] the final cell (after the last observation) becomes 3,
refuting the claim that dates after the last observation stay missing. -/
theorem interp_extrapolation_counterexample :
    interpolateLinear [some 1, none, some 3, none]
      = [some 1, some 2, some 3, some 3] ∧
    (interpolateLinear [some 1, none, some 3, none]).getD 3 none = some 3 ∧
    some (3 : ℚ) ≠ none :=
  ⟨by with_unfolding_all rfl, by with_unfolding_all rfl, by simp⟩

/-- C5 amended: cells before the first known observation stay missing and
interior gaps get the linear interpolation between the nearest known
neighbours, as claimed — but cells after the last known observation are
filled by carrying that last value forward (pandas' forward limit
direction), not left missing. -/
theorem interp_gaps_amended :
    (∀ (xs : List (Option ℚ)) (i : ℕ), i < xs.length →
      (∀ m, m ≤ i → xs.getD m none = none) →
      (interpolateLinear xs).getD i none = none) ∧
    (∀ (xs : List (Option ℚ)) (i j k : ℕ) (vj vk : ℚ),
      j < i → i < k → k < xs.length →
      xs.getD j none = some vj → xs.getD k none = some vk →
      (∀ m, j < m → m < k → xs.getD m none = none) →
      (interpolateLinear xs).getD i none
        = some (vj + (vk - vj) * (((i : ℚ) - (j : ℚ)) / ((k : ℚ) - (j : ℚ))))) ∧
    (∀ (xs : List (Option ℚ)) (i j : ℕ) (vj : ℚ),
      j < i → i < xs.length →
      xs.getD j none = some vj →
      (∀ m, j < m → xs.getD m none = none) →
      (interpolateLinear xs).getD i none = some vj) := by
  refine ⟨?_, ?_, ?_⟩
  · intro xs i hi hall
    rw [interpolateLinear, getD_map_range _ _ i hi, interpAt,
      hall i (le_refl i), lastKnown_none xs i hall]
  · intro xs i j k vj vk hji hik hk hgj hgk hbet
    have hgi : xs.getD i none = none := hbet i hji hik
    have hlast : lastKnown xs i = some (j, vj) :=
      lastKnown_eq_of xs j vj hgj i (le_of_lt hji)
        (fun m hm1 hm2 => hbet m hm1 (lt_of_le_of_lt hm2 hik))
    have hnext : nextKnown xs i = some (k, vk) :=
      nextKnown_eq xs k vk i hgk (le_of_lt hik) hk
        (fun m hm1 hm2 => hbet m (lt_of_lt_of_le hji hm1) hm2)
    have hilen : i < xs.length := lt_trans hik hk
    rw [interpolateLinear, getD_map_range _ _ i hilen, interpAt, hgi, hlast, hnext]
  · intro xs i j vj hji hi hgj htrail
    have hgi : xs.getD i none = none := htrail i hji
    have hlast : lastKnown xs i = some (j, vj) :=
      lastKnown_eq_of xs j vj hgj i (le_of_lt hji)
        (fun m hm1 _ => htrail m hm1)
    have hnext : nextKnown xs i = none := by
      rw [nextKnown]
      exact nextKnownFrom_none xs (xs.length - i) i
        (fun m hm => htrail m (lt_of_lt_of_le hji hm))
    rw [interpolateLinear, getD_map_range _ _ i hi, interpAt, hgi, hlast, hnext]

/-- Witness for C5's amended statement: a leading gap stays missing, the
interior gap of [1, gap, 3, gap] interpolates to 2, and its trailing gap
is padded with 3. -/
theorem interp_gaps_amended_witness :
    (interpolateLinear [none, some 1]).getD 0 none = none ∧
    (interpolateLinear [some 1, none, some 3, none]).getD 1 none
      = some (1 + (3 - 1) * (((1 : ℚ) - (0 : ℚ)) / ((2 : ℚ) - (0 : ℚ)))) ∧
    (interpolateLinear [some 1, none, some 3, none]).getD 3 none = some 3 := by
  refine ⟨interp_gaps_amended.1 [none, some 1] 0 (by decide) ?_,
    interp_gaps_amended.2.1 [some 1, none, some 3, none] 1 0 2 1 3
      (by decide) (by decide) (by decide) rfl rfl ?_,
    interp_gaps_amended.2.2 [some 1, none, some 3, none] 3 2 3
      (by decide) (by decide) rfl ?_⟩
  · intro m hm
    rw [Nat.le_zero.mp hm]
    rfl
  · intro m hm1 hm2
    interval_cases m
    rfl
  · intro m hm
    rcases m with _|_|_|m
    · omega
    · omega
    · omega
    · cases m with
      | zero => rfl
      | succ m => rfl

/-- C10: the scorer forward-fills every column before computing percent
changes: the forward-filled cell at i is exactly the last known value at
or before i; for t > 0 the percent change compares the carried values at
t-1 and t (so a gap after an observation is measured against the carried
value, never skipped); and a date whose entire prefix is missing yields
zero change. -/
theorem ffill_pct_change :
    (∀ (xs : List (Option ℚ)) (i : ℕ), i < xs.length →
      (ffill xs).getD i none = (lastKnown xs i).map Prod.snd) ∧
    (∀ (xs : List (Option ℚ)) (t : ℕ), 0 < t → t < xs.length →
      pctAt (ffill xs) t
        = pcVal ((lastKnown xs (t-1)).map Prod.snd)
            ((lastKnown xs t).map Prod.snd)) ∧
    (∀ (xs : List (Option ℚ)) (t : ℕ), 0 < t → lastKnown xs (t-1) = none →
      pctAt (ffill xs) t = PC.val 0) := by
  refine ⟨ffill_getD, ?_, ?_⟩
  · intro xs t ht hlen
    rw [pctAt, if_neg (Nat.pos_iff_ne_zero.mp ht),
      ffill_getD xs (t-1) (by omega), ffill_getD xs t hlen]
  · intro xs t ht hlk
    rw [pctAt, if_neg (Nat.pos_iff_ne_zero.mp ht)]
    by_cases hl : t - 1 < xs.length
    · rw [ffill_getD xs (t-1) hl, hlk]
      rfl
    · have hlen : (ffill xs).length ≤ t - 1 := by
        rw [ffill_length]
        omega
      rw [List.getD_eq_getElem?_getD, List.getElem?_eq_none hlen]
      rfl

/-- Witness for C10 at a concrete column with an interior gap. -/
theorem ffill_pct_change_witness :
    pctAt (ffill [some 4, none, some 6]) 2
      = pcVal ((lastKnown [some 4, none, some 6] 1).map Prod.snd)
          ((lastKnown [some 4, none, some 6] 2).map Prod.snd) :=
  ffill_pct_change.2.1 [some 4, none, some 6] 2 (by decide) (by decide)
